import Mathlib

/-!
Verification of the cohort-extraction pipeline
(`extraction/cohort_extraction.ipynb`).

The notebook is a linear pandas pipeline: merge three source tables on
`patientunitstayid`, apply six row filters, collapse min/max lab pairs into a
single "most abnormal" value per row, replace the `-1` sentinel with NaN and
drop rows without a valid APACHE prediction, encode categorical columns, and
split 75/25 into train and test partitions.

We embed the numeric table stages shallowly: a row is an association list from
column names to cells, where a cell is `Option ℚ` and `none` stands for NaN.
The pandas NaN-comparison semantics (`NaN >= x`, `NaN < x`, `NaN == x` all
evaluate to `False`) are reflected in the `Bool`-valued checks below.
-/

namespace Cohort

/-- A cell of the dataframe: `none` models NaN / a missing value. -/
abbrev Cell := Option ℚ

/-- A dataframe row: association list from column name to cell. -/
abbrev Row := List (String × Cell)

/-- Read a column of a row; a column that is absent reads as missing. -/
def getCol (r : Row) (c : String) : Cell := (List.lookup c r).join

/-- Pandas `df.assign(c=v)` restricted to one row: add (or shadow) column `c`. -/
def assignCol (c : String) (v : Cell) (r : Row) : Row := (c, v) :: r

/-- Pandas `df.drop(cs, axis=1)` restricted to one row: remove the named columns. -/
def dropCols (cs : List String) (r : Row) : Row :=
  r.filter (fun p => decide (p.1 ∉ cs))

/-- The column names present in a row. -/
def colNames (r : Row) : List String := r.map Prod.fst

theorem lookup_filter_of_keeps (c : String) (f : String × Cell → Bool)
    (hf : ∀ v, f (c, v) = true) :
    ∀ r : Row, List.lookup c (r.filter f) = List.lookup c r := by
  intro r
  induction r with
  | nil => rfl
  | cons p r ih =>
    rcases p with ⟨d, v⟩
    by_cases hcd : c = d
    · subst hcd
      rw [List.filter_cons, hf v]
      simp [List.lookup]
    · have hbeq : (c == d) = false := beq_eq_false_iff_ne.mpr hcd
      rw [List.filter_cons]
      cases hfd : f (d, v) with
      | true => simp [List.lookup, hbeq, ih]
      | false => simp [List.lookup, hbeq, ih]

theorem lookup_dropCols_of_not_mem (c : String) (cs : List String) (r : Row)
    (h : c ∉ cs) : List.lookup c (dropCols cs r) = List.lookup c r :=
  lookup_filter_of_keeps c _ (fun _ => by simpa using h) r

theorem getCol_dropCols (c : String) (cs : List String) (r : Row)
    (h : c ∉ cs) : getCol (dropCols cs r) c = getCol r c := by
  simp [getCol, lookup_dropCols_of_not_mem c cs r h]

theorem getCol_assign_self (c : String) (v : Cell) (r : Row) :
    getCol (assignCol c v r) c = v := by
  simp [getCol, assignCol, List.lookup]

theorem getCol_assign_ne (c d : String) (v : Cell) (r : Row) (h : c ≠ d) :
    getCol (assignCol d v r) c = getCol r c := by
  have : ¬ (c == d) = true := by simpa using h
  simp [getCol, assignCol, List.lookup, this]

theorem colNames_dropCols (cs : List String) (r : Row) :
    colNames (dropCols cs r) = (colNames r).filter (fun c => decide (c ∉ cs)) := by
  induction r with
  | nil => rfl
  | cons p r ih =>
    rw [dropCols, List.filter_cons]
    cases hfd : decide (p.1 ∉ cs) with
    | true =>
      simp only [colNames, List.map, List.filter_cons, hfd]
      simpa [dropCols, colNames] using ih
    | false =>
      simp only [colNames, List.map, List.filter_cons, hfd]
      simpa [dropCols, colNames] using ih

theorem mem_colNames_dropCols (c : String) (cs : List String) (r : Row) :
    c ∈ colNames (dropCols cs r) ↔ c ∈ colNames r ∧ c ∉ cs := by
  rw [colNames_dropCols]
  simp [List.mem_filter]

theorem mem_colNames_assign (c d : String) (v : Cell) (r : Row) :
    c ∈ colNames (assignCol d v r) ↔ c = d ∨ c ∈ colNames r := by
  simp [colNames, assignCol]

/-! Abnormal-value selection (notebook cell "4 - Cleaning and Formatting")

`sodium_check = abs(cohort.sodium_min - 135.) >= abs(cohort.sodium_max - 145.)`
with NaN on either side making the comparison `False`; the masked assignment
`sodium[check] = min; sodium[~check] = max` then selects min where the check
holds and max elsewhere.  `wbc_check = cohort.wbc_min < 2` likewise evaluates
to `False` on NaN. -/

/-- The bidirectional deviation check: false whenever either end is missing. -/
def bidirCheck (mn mx : Cell) (lo hi : ℚ) : Bool :=
  match mn, mx with
  | some a, some b => decide (|a - lo| ≥ |b - hi|)
  | _, _ => false

/-- Masked selection for the bidirectional rule. -/
def bidirSelect (mn mx : Cell) (lo hi : ℚ) : Cell :=
  if bidirCheck mn mx lo hi then mn else mx

/-- The threshold check `min < t`: false when the minimum is missing. -/
def threshCheck (mn : Cell) (t : ℚ) : Bool :=
  match mn with
  | some a => decide (a < t)
  | none => false

/-- Masked selection for the threshold-gated rule. -/
def threshSelect (mn mx : Cell) (t : ℚ) : Cell :=
  if threshCheck mn t then mn else mx

/-- The unidirectional min/max columns dropped outright (`lab_drop`). -/
def lab_drop : List String :=
  ["bicarbonate_max", "chloride_max", "calcium_max", "magnesium_max",
   "baseexcess_max", "platelet_max", "hemoglobin_max", "phosphate_max",
   "fibrinogen_max", "ph_max", "hematocrit_max", "creatinine_min",
   "bun_min", "bilirubin_min", "pt_min", "inr_min", "lactate_min",
   "tropi_min", "tropt_min", "amylase_min", "lipase_min", "bnp_min",
   "cpk_min", "albumin_max", "ioncalcium_max", "pao2_max", "pt_min",
   "ptt_min", "inr_min", "aniongap_min"]

/-- One row of the abnormal-value selection cell, in source order: drop the
unidirectional ends, then for sodium / potassium / glucose apply the
bidirectional rule (bounds 135/145, 3.5/5.0, 70/130) and drop both sources,
then compute the three threshold checks (2, 45, 20) from each analyte's own
minimum and apply the masked selection, dropping both sources of each pair. -/
def abnormalValueStage (r : Row) : Row :=
  let r0 := dropCols lab_drop r
  let r1 := dropCols ["sodium_min", "sodium_max"]
    (assignCol "sodium"
      (bidirSelect (getCol r0 "sodium_min") (getCol r0 "sodium_max") 135 145) r0)
  let r2 := dropCols ["potassium_min", "potassium_max"]
    (assignCol "potassium"
      (bidirSelect (getCol r1 "potassium_min") (getCol r1 "potassium_max") (7/2) 5) r1)
  let r3 := dropCols ["glucose_min", "glucose_max"]
    (assignCol "glucose"
      (bidirSelect (getCol r2 "glucose_min") (getCol r2 "glucose_max") 70 130) r2)
  let wbc_check := threshCheck (getCol r3 "wbc_min") 2
  let pmn_check := threshCheck (getCol r3 "pmn_min") 45
  let lym_check := threshCheck (getCol r3 "lymphs_min") 20
  let r4 := dropCols ["wbc_min", "wbc_max"]
    (assignCol "wbc"
      (if wbc_check then getCol r3 "wbc_min" else getCol r3 "wbc_max") r3)
  let r5 := dropCols ["pmn_min", "pmn_max"]
    (assignCol "pmn"
      (if pmn_check then getCol r4 "pmn_min" else getCol r4 "pmn_max") r4)
  let r6 := dropCols ["lymphs_min", "lymphs_max"]
    (assignCol "lym"
      (if lym_check then getCol r5 "lymphs_min" else getCol r5 "lymphs_max") r5)
  r6

theorem stage_sodium (r : Row) :
    getCol (abnormalValueStage r) "sodium" =
      bidirSelect (getCol r "sodium_min") (getCol r "sodium_max") 135 145 := by
  simp only [abnormalValueStage]
  rw [getCol_dropCols _ _ _ (by decide), getCol_assign_ne _ _ _ _ (by decide),
    getCol_dropCols _ _ _ (by decide), getCol_assign_ne _ _ _ _ (by decide),
    getCol_dropCols _ _ _ (by decide), getCol_assign_ne _ _ _ _ (by decide),
    getCol_dropCols _ _ _ (by decide), getCol_assign_ne _ _ _ _ (by decide),
    getCol_dropCols _ _ _ (by decide), getCol_assign_ne _ _ _ _ (by decide),
    getCol_dropCols _ _ _ (by decide), getCol_assign_self,
    getCol_dropCols _ _ _ (by decide), getCol_dropCols _ _ _ (by decide)]

theorem stage_potassium (r : Row) :
    getCol (abnormalValueStage r) "potassium" =
      bidirSelect (getCol r "potassium_min") (getCol r "potassium_max") (7/2) 5 := by
  simp only [abnormalValueStage]
  simp +decide [getCol_dropCols, getCol_assign_ne, getCol_assign_self]

theorem stage_glucose (r : Row) :
    getCol (abnormalValueStage r) "glucose" =
      bidirSelect (getCol r "glucose_min") (getCol r "glucose_max") 70 130 := by
  simp only [abnormalValueStage]
  simp +decide [getCol_dropCols, getCol_assign_ne, getCol_assign_self]

theorem stage_wbc (r : Row) :
    getCol (abnormalValueStage r) "wbc" =
      threshSelect (getCol r "wbc_min") (getCol r "wbc_max") 2 := by
  simp only [abnormalValueStage, threshSelect]
  simp +decide [getCol_dropCols, getCol_assign_ne, getCol_assign_self]

theorem stage_pmn (r : Row) :
    getCol (abnormalValueStage r) "pmn" =
      threshSelect (getCol r "pmn_min") (getCol r "pmn_max") 45 := by
  simp only [abnormalValueStage, threshSelect]
  simp +decide [getCol_dropCols, getCol_assign_ne, getCol_assign_self]

theorem stage_lym (r : Row) :
    getCol (abnormalValueStage r) "lym" =
      threshSelect (getCol r "lymphs_min") (getCol r "lymphs_max") 20 := by
  simp only [abnormalValueStage, threshSelect]
  simp +decide [getCol_dropCols, getCol_assign_ne, getCol_assign_self]

theorem stage_keeps_id (r : Row) :
    getCol (abnormalValueStage r) "patientunitstayid" =
      getCol r "patientunitstayid" := by
  simp only [abnormalValueStage]
  simp +decide [getCol_dropCols, getCol_assign_ne, getCol_assign_self]

theorem stage_drops_pair_sources (r : Row) :
    "sodium_min" ∉ colNames (abnormalValueStage r) ∧
    "sodium_max" ∉ colNames (abnormalValueStage r) ∧
    "potassium_min" ∉ colNames (abnormalValueStage r) ∧
    "potassium_max" ∉ colNames (abnormalValueStage r) ∧
    "glucose_min" ∉ colNames (abnormalValueStage r) ∧
    "glucose_max" ∉ colNames (abnormalValueStage r) ∧
    "wbc_min" ∉ colNames (abnormalValueStage r) ∧
    "wbc_max" ∉ colNames (abnormalValueStage r) ∧
    "pmn_min" ∉ colNames (abnormalValueStage r) ∧
    "pmn_max" ∉ colNames (abnormalValueStage r) ∧
    "lymphs_min" ∉ colNames (abnormalValueStage r) ∧
    "lymphs_max" ∉ colNames (abnormalValueStage r) := by
  refine ⟨?_, ?_, ?_, ?_, ?_, ?_, ?_, ?_, ?_, ?_, ?_, ?_⟩ <;>
    simp +decide [abnormalValueStage, mem_colNames_dropCols, mem_colNames_assign]

/-- Claim C1: for every row, the bidirectional selector collapses each pair
(sodium 135/145, potassium 3.5/5.0, glucose 70/130) into one derived column
equal to the pair's minimum when `|min − lo| ≥ |max − hi|` (so ties select the
minimum) and to the maximum otherwise, and both source columns are dropped. -/
theorem C1_bidirectional_selection (r : Row) :
    (∀ a b, getCol r "sodium_min" = some a → getCol r "sodium_max" = some b →
      getCol (abnormalValueStage r) "sodium" =
        some (if |a - 135| ≥ |b - 145| then a else b)) ∧
    (∀ a b, getCol r "potassium_min" = some a → getCol r "potassium_max" = some b →
      getCol (abnormalValueStage r) "potassium" =
        some (if |a - 7/2| ≥ |b - 5| then a else b)) ∧
    (∀ a b, getCol r "glucose_min" = some a → getCol r "glucose_max" = some b →
      getCol (abnormalValueStage r) "glucose" =
        some (if |a - 70| ≥ |b - 130| then a else b)) ∧
    "sodium_min" ∉ colNames (abnormalValueStage r) ∧
    "sodium_max" ∉ colNames (abnormalValueStage r) ∧
    "potassium_min" ∉ colNames (abnormalValueStage r) ∧
    "potassium_max" ∉ colNames (abnormalValueStage r) ∧
    "glucose_min" ∉ colNames (abnormalValueStage r) ∧
    "glucose_max" ∉ colNames (abnormalValueStage r) := by
  obtain ⟨d1, d2, d3, d4, d5, d6, -⟩ := stage_drops_pair_sources r
  refine ⟨?_, ?_, ?_, d1, d2, d3, d4, d5, d6⟩
  · intro a b ha hb
    rw [stage_sodium, ha, hb]
    simp only [bidirSelect, bidirCheck, decide_eq_true_eq]
    split_ifs <;> rfl
  · intro a b ha hb
    rw [stage_potassium, ha, hb]
    simp only [bidirSelect, bidirCheck, decide_eq_true_eq]
    split_ifs <;> rfl
  · intro a b ha hb
    rw [stage_glucose, ha, hb]
    simp only [bidirSelect, bidirCheck, decide_eq_true_eq]
    split_ifs <;> rfl

/-- A concrete row exercising the bidirectional selector, including the spec's
tie example sodium_min=130 / sodium_max=140. -/
def bidirRow : Row :=
  [("sodium_min", some 130), ("sodium_max", some 140),
   ("potassium_min", some 3), ("potassium_max", some 6),
   ("glucose_min", some 67), ("glucose_max", some 150)]

theorem C1_bidirectional_selection_witness :
    getCol (abnormalValueStage bidirRow) "sodium" = some 130 ∧
    getCol (abnormalValueStage bidirRow) "potassium" = some 6 ∧
    getCol (abnormalValueStage bidirRow) "glucose" = some 150 ∧
    "sodium_min" ∉ colNames (abnormalValueStage bidirRow) := by
  obtain ⟨h1, h2, h3, hd, -⟩ := C1_bidirectional_selection bidirRow
  refine ⟨?_, ?_, ?_, hd⟩
  · have := h1 130 140 rfl rfl
    rwa [if_pos (by norm_num [abs])] at this
  · have := h2 3 6 rfl rfl
    rwa [if_neg (by norm_num [abs])] at this
  · have := h3 67 150 rfl rfl
    rwa [if_neg (by norm_num [abs])] at this

/-- Claim C2: for every row, the threshold-gated selector picks the minimum of
a pair exactly when that analyte's own minimum is strictly below its threshold
(WBC 2, PMN 45, lymphocytes 20) and otherwise picks the maximum regardless of
the maximum's value; each check reads only its own minimum column, and both
source columns of each pair are dropped. -/
theorem C2_threshold_selection (r : Row) :
    (∀ a, getCol r "wbc_min" = some a →
      getCol (abnormalValueStage r) "wbc" =
        if a < 2 then some a else getCol r "wbc_max") ∧
    (∀ a, getCol r "pmn_min" = some a →
      getCol (abnormalValueStage r) "pmn" =
        if a < 45 then some a else getCol r "pmn_max") ∧
    (∀ a, getCol r "lymphs_min" = some a →
      getCol (abnormalValueStage r) "lym" =
        if a < 20 then some a else getCol r "lymphs_max") ∧
    "wbc_min" ∉ colNames (abnormalValueStage r) ∧
    "wbc_max" ∉ colNames (abnormalValueStage r) ∧
    "pmn_min" ∉ colNames (abnormalValueStage r) ∧
    "pmn_max" ∉ colNames (abnormalValueStage r) ∧
    "lymphs_min" ∉ colNames (abnormalValueStage r) ∧
    "lymphs_max" ∉ colNames (abnormalValueStage r) := by
  obtain ⟨-, -, -, -, -, -, d7, d8, d9, d10, d11, d12⟩ := stage_drops_pair_sources r
  refine ⟨?_, ?_, ?_, d7, d8, d9, d10, d11, d12⟩
  · intro a ha
    rw [stage_wbc, ha]
    simp only [threshSelect, threshCheck, decide_eq_true_eq]
  · intro a ha
    rw [stage_pmn, ha]
    simp only [threshSelect, threshCheck, decide_eq_true_eq]
  · intro a ha
    rw [stage_lym, ha]
    simp only [threshSelect, threshCheck, decide_eq_true_eq]

/-- A concrete row exercising the threshold selector: wbc_min = 1.5 selects the
minimum; pmn_min = 50 selects the (smaller!) maximum; lymphs_min = 19 selects
the minimum. -/
def threshRow : Row :=
  [("wbc_min", some (3/2)), ("wbc_max", some 14),
   ("pmn_min", some 50), ("pmn_max", some 48),
   ("lymphs_min", some 19), ("lymphs_max", some 40)]

theorem C2_threshold_selection_witness :
    getCol (abnormalValueStage threshRow) "wbc" = some (3/2) ∧
    getCol (abnormalValueStage threshRow) "pmn" = some 48 ∧
    getCol (abnormalValueStage threshRow) "lym" = some 19 ∧
    "wbc_min" ∉ colNames (abnormalValueStage threshRow) := by
  obtain ⟨h1, h2, h3, hd, -⟩ := C2_threshold_selection threshRow
  refine ⟨?_, ?_, ?_, hd⟩
  · have := h1 (3/2) rfl
    rwa [if_pos (by norm_num)] at this
  · have := h2 50 rfl
    rw [if_neg (by norm_num)] at this
    rw [this]; exact rfl
  · have := h3 19 rfl
    rwa [if_pos (by norm_num)] at this

/-- Claim C9: for every row in which both the minimum and the maximum of a
min/max pair are missing, each selector policy (bidirectional and
threshold-gated) produces a missing derived value; the stage is total, so no
error is raised. -/
theorem C9_both_missing_yields_missing (r : Row) :
    (getCol r "sodium_min" = none → getCol r "sodium_max" = none →
      getCol (abnormalValueStage r) "sodium" = none) ∧
    (getCol r "potassium_min" = none → getCol r "potassium_max" = none →
      getCol (abnormalValueStage r) "potassium" = none) ∧
    (getCol r "glucose_min" = none → getCol r "glucose_max" = none →
      getCol (abnormalValueStage r) "glucose" = none) ∧
    (getCol r "wbc_min" = none → getCol r "wbc_max" = none →
      getCol (abnormalValueStage r) "wbc" = none) ∧
    (getCol r "pmn_min" = none → getCol r "pmn_max" = none →
      getCol (abnormalValueStage r) "pmn" = none) ∧
    (getCol r "lymphs_min" = none → getCol r "lymphs_max" = none →
      getCol (abnormalValueStage r) "lym" = none) := by
  refine ⟨?_, ?_, ?_, ?_, ?_, ?_⟩
  · intro h1 h2; rw [stage_sodium, h1, h2]; rfl
  · intro h1 h2; rw [stage_potassium, h1, h2]; rfl
  · intro h1 h2; rw [stage_glucose, h1, h2]; rfl
  · intro h1 h2; rw [stage_wbc, h1, h2]; rfl
  · intro h1 h2; rw [stage_pmn, h1, h2]; rfl
  · intro h1 h2; rw [stage_lym, h1, h2]; rfl

/-- A row with every pair fully missing. -/
def allMissingRow : Row :=
  [("sodium_min", none), ("sodium_max", none),
   ("potassium_min", none), ("potassium_max", none),
   ("glucose_min", none), ("glucose_max", none),
   ("wbc_min", none), ("wbc_max", none),
   ("pmn_min", none), ("pmn_max", none),
   ("lymphs_min", none), ("lymphs_max", none)]

theorem C9_both_missing_yields_missing_witness :
    getCol (abnormalValueStage allMissingRow) "sodium" = none ∧
    getCol (abnormalValueStage allMissingRow) "potassium" = none ∧
    getCol (abnormalValueStage allMissingRow) "glucose" = none ∧
    getCol (abnormalValueStage allMissingRow) "wbc" = none ∧
    getCol (abnormalValueStage allMissingRow) "pmn" = none ∧
    getCol (abnormalValueStage allMissingRow) "lym" = none := by
  obtain ⟨h1, h2, h3, h4, h5, h6⟩ := C9_both_missing_yields_missing allMissingRow
  exact ⟨h1 rfl rfl, h2 rfl rfl, h3 rfl rfl, h4 rfl rfl, h5 rfl rfl, h6 rfl rfl⟩

/-- Claim C10: in the bidirectional selector a missing maximum with a present
minimum yields a missing derived value (the deviation comparison with a missing
operand is false, so the missing maximum is selected); symmetrically, in the
threshold-gated selector a missing minimum makes the threshold comparison
false, so the maximum is selected. -/
theorem C10_missing_operand_selection (r : Row) :
    (∀ a, getCol r "sodium_min" = some a → getCol r "sodium_max" = none →
      getCol (abnormalValueStage r) "sodium" = none) ∧
    (∀ a, getCol r "potassium_min" = some a → getCol r "potassium_max" = none →
      getCol (abnormalValueStage r) "potassium" = none) ∧
    (∀ a, getCol r "glucose_min" = some a → getCol r "glucose_max" = none →
      getCol (abnormalValueStage r) "glucose" = none) ∧
    (getCol r "wbc_min" = none →
      getCol (abnormalValueStage r) "wbc" = getCol r "wbc_max") ∧
    (getCol r "pmn_min" = none →
      getCol (abnormalValueStage r) "pmn" = getCol r "pmn_max") ∧
    (getCol r "lymphs_min" = none →
      getCol (abnormalValueStage r) "lym" = getCol r "lymphs_max") := by
  refine ⟨?_, ?_, ?_, ?_, ?_, ?_⟩
  · intro a ha hb; rw [stage_sodium, ha, hb]; rfl
  · intro a ha hb; rw [stage_potassium, ha, hb]; rfl
  · intro a ha hb; rw [stage_glucose, ha, hb]; rfl
  · intro h; rw [stage_wbc, h]; rfl
  · intro h; rw [stage_pmn, h]; rfl
  · intro h; rw [stage_lym, h]; rfl

/-- A row where each pair has a present minimum and a missing maximum. -/
def halfMissingRow : Row :=
  [("sodium_min", some 120), ("sodium_max", none),
   ("potassium_min", some 2), ("potassium_max", none),
   ("glucose_min", some 40), ("glucose_max", none),
   ("wbc_min", none), ("wbc_max", some 30),
   ("pmn_min", none), ("pmn_max", some 80),
   ("lymphs_min", none), ("lymphs_max", some 60)]

theorem C10_missing_operand_selection_witness :
    getCol (abnormalValueStage halfMissingRow) "sodium" = none ∧
    getCol (abnormalValueStage halfMissingRow) "potassium" = none ∧
    getCol (abnormalValueStage halfMissingRow) "glucose" = none ∧
    getCol (abnormalValueStage halfMissingRow) "wbc" = some 30 ∧
    getCol (abnormalValueStage halfMissingRow) "pmn" = some 80 ∧
    getCol (abnormalValueStage halfMissingRow) "lym" = some 60 := by
  obtain ⟨h1, h2, h3, h4, h5, h6⟩ := C10_missing_operand_selection halfMissingRow
  refine ⟨h1 120 rfl rfl, h2 2 rfl rfl, h3 40 rfl rfl, ?_, ?_, ?_⟩
  · rw [h4 rfl]; exact rfl
  · rw [h5 rfl]; exact rfl
  · rw [h6 rfl]; exact rfl

/-! Filter stage (notebook section "3 - Inclusion / Exclusion")

Six ordered `cohort.loc` row filters.  Optional cells model pandas NaN: an
equality or ordered comparison against NaN evaluates to `False` (the row is
dropped), while `!=` against NaN evaluates to `True` (the row is kept).  The
`age` column arrives as strings; after excluding `'> 89'` and `''` the source
casts it with `astype('int64')`, which raises on any remaining unparsable
value — modelled by the stage returning `none`. -/

/-- The comparison `v >= t` on an optional cell: false when missing. -/
def geCheck (v : Cell) (t : ℚ) : Bool :=
  match v with
  | some x => decide (t ≤ x)
  | none => false

/-- One row of the merged cohort table, restricted to the columns the Filter
stage reads.  `A` is the type of the `age` column (`Option String` before the
cast, `Int` after). -/
structure CohortRow (A : Type) where
  patientunitstayid : Nat
  apache_readmit : Option ℚ
  unitadmitsource : Option String
  unit_los : Option ℚ
  hospital_los : Option ℚ
  admit_diagnosis : Option String
  age : A

/-- Replace the `age` column of a row, keeping every other column. -/
def setAge {A B : Type} (r : CohortRow A) (a : B) : CohortRow B :=
  ⟨r.patientunitstayid, CohortRow.apache_readmit r, r.unitadmitsource,
   r.unit_los, r.hospital_los, r.admit_diagnosis, a⟩

/-- Parse a digit string into a natural number, left to right. -/
def parseNatAux : List Char → Nat → Option Nat
  | [], acc => some acc
  | c :: cs, acc =>
    if c.isDigit then parseNatAux cs (10 * acc + (c.toNat - '0'.toNat)) else none

/-- Parse a decimal integer string (optional leading minus sign); `none` on the
empty string or any non-digit character, as the pandas `astype('int64')` cast
raises there. -/
def parseInt (s : String) : Option Int :=
  match s.data with
  | [] => none
  | '-' :: cs =>
    if cs.isEmpty then none else (parseNatAux cs 0).map (fun n => -(n : Int))
  | cs => (parseNatAux cs 0).map (fun n => (n : Int))

/-- The cast `cohort.age.astype('int64')`: parse every row's age string, failing (as the
pandas cast raises) if any row's age is missing or unparsable. -/
def ageToInt : List (CohortRow (Option String)) → Option (List (CohortRow Int))
  | [] => some []
  | r :: rs =>
    match r.age with
    | none => none
    | some s =>
      match parseInt s with
      | none => none
      | some a =>
        match ageToInt rs with
        | none => none
        | some out => some (setAge r a :: out)

/-- The Filter stage: the six row filters of the source, in source order. -/
def filterStage (rows : List (CohortRow (Option String))) :
    Option (List (CohortRow Int)) :=
  let r1 := rows.filter (fun r => decide ( CohortRow.apache_readmit r = some 0))
  let r2 := r1.filter (fun r => decide (r.unitadmitsource ≠ some "Other ICU"))
  let r3 := r2.filter (fun r => geCheck r.unit_los 240)
  let r4 := r3.filter (fun r => threshCheck r.hospital_los 525600)
  let r5 := r4.filter (fun r => decide (r.admit_diagnosis ≠ some "BURN"))
  let r6 := r5.filter (fun r => decide (r.age ≠ some "> 89"))
  let r7 := r6.filter (fun r => decide (r.age ≠ some ""))
  match ageToInt r7 with
  | none => none
  | some rs => some (rs.filter (fun r => decide (16 ≤ r.age)))

theorem mem_ageToInt {rs : List (CohortRow (Option String))}
    {out : List (CohortRow Int)} (h : ageToInt rs = some out)
    {r : CohortRow Int} (hr : r ∈ out) :
    ∃ r0 ∈ rs, ∃ s, r0.age = some s ∧ parseInt s = some r.age ∧
      r = setAge r0 r.age := by
  induction rs generalizing out with
  | nil =>
    simp only [ageToInt, Option.some.injEq] at h
    subst h; cases hr
  | cons p ps ih =>
    simp only [ageToInt] at h
    split at h
    · cases h
    · rename_i s hage
      split at h
      · cases h
      · rename_i a hint
        split at h
        · cases h
        · rename_i out' hrec
          simp only [Option.some.injEq] at h
          subst h
          rcases List.mem_cons.mp hr with hr0 | hr0
          · subst hr0
            exact ⟨p, List.mem_cons_self _ _, s, hage, by simp [setAge, hint], rfl⟩
          · obtain ⟨r0, hr0m, s0, hs0, hs1, hs2⟩ := ih hrec hr0
            exact ⟨r0, List.mem_cons_of_mem _ hr0m, s0, hs0, hs1, hs2⟩

/-- Claim C3: every row retained after the Filter stage satisfies all six
predicates simultaneously: readmission indicator 0, admission source not
'Other ICU', unit LOS ≥ 240 minutes, hospital LOS < 525600 minutes, admitting
diagnosis not 'BURN', and an age that was present (not empty), not the '> 89'
top-code sentinel, and parses to an integer ≥ 16 (no upper bound enforced). -/
theorem C3_filter_predicates (rows : List (CohortRow (Option String)))
    (out : List (CohortRow Int)) (h : filterStage rows = some out)
    (r : CohortRow Int) (hr : r ∈ out) :
    CohortRow.apache_readmit r = some 0 ∧
    r.unitadmitsource ≠ some "Other ICU" ∧
    (∃ l, r.unit_los = some l ∧ 240 ≤ l) ∧
    (∃ l, r.hospital_los = some l ∧ l < 525600) ∧
    r.admit_diagnosis ≠ some "BURN" ∧
    16 ≤ r.age ∧
    (∃ s, s ≠ "" ∧ s ≠ "> 89" ∧ parseInt s = some r.age) := by
  simp only [filterStage] at h
  split at h
  · cases h
  · rename_i rs hrec
    simp only [Option.some.injEq] at h
    subst h
    rw [List.mem_filter, decide_eq_true_eq] at hr
    obtain ⟨hr, hage16⟩ := hr
    obtain ⟨r0, hr0m, s, hs0, hs1, hs2⟩ := mem_ageToInt hrec hr
    rw [List.mem_filter, decide_eq_true_eq] at hr0m
    obtain ⟨hr0m, hne_empty⟩ := hr0m
    rw [List.mem_filter, decide_eq_true_eq] at hr0m
    obtain ⟨hr0m, hne89⟩ := hr0m
    rw [List.mem_filter, decide_eq_true_eq] at hr0m
    obtain ⟨hr0m, hburn⟩ := hr0m
    rw [List.mem_filter] at hr0m
    obtain ⟨hr0m, hhos⟩ := hr0m
    rw [List.mem_filter] at hr0m
    obtain ⟨hr0m, hunit⟩ := hr0m
    rw [List.mem_filter, decide_eq_true_eq] at hr0m
    obtain ⟨hr0m, hicu⟩ := hr0m
    rw [List.mem_filter, decide_eq_true_eq] at hr0m
    obtain ⟨-, hreadmit⟩ := hr0m
    obtain ⟨lu, hlu⟩ : ∃ lu, r0.unit_los = some lu := by
      cases hu : r0.unit_los with
      | none => rw [geCheck.eq_def, hu] at hunit; cases hunit
      | some x => exact ⟨x, rfl⟩
    obtain ⟨lh, hlh⟩ : ∃ lh, r0.hospital_los = some lh := by
      cases hh : r0.hospital_los with
      | none => rw [threshCheck.eq_def, hh] at hhos; cases hhos
      | some x => exact ⟨x, rfl⟩
    rw [geCheck.eq_def, hlu, decide_eq_true_eq] at hunit
    rw [threshCheck.eq_def, hlh, decide_eq_true_eq] at hhos
    have hfields : CohortRow.apache_readmit r = CohortRow.apache_readmit r0 ∧
        r.unitadmitsource = r0.unitadmitsource ∧ r.unit_los = r0.unit_los ∧
        r.hospital_los = r0.hospital_los ∧ r.admit_diagnosis = r0.admit_diagnosis := by
      rw [hs2]
      exact ⟨rfl, rfl, rfl, rfl, rfl⟩
    obtain ⟨e1, e2, e3, e4, e5⟩ := hfields
    refine ⟨e1.trans hreadmit, by rw [e2]; exact hicu, ⟨lu, e3.trans hlu, hunit⟩,
      ⟨lh, e4.trans hlh, hhos⟩, by rw [e5]; exact hburn, hage16, s, ?_, ?_, hs1⟩
    · rintro rfl
      exact hne_empty (by simpa using hs0)
    · rintro rfl
      exact hne89 (by simpa using hs0)

/-- A concrete input row that survives every filter; its age of 95 also shows
that no upper age bound is enforced beyond excluding the '> 89' sentinel. -/
def fRowIn : CohortRow (Option String) :=
  ⟨1, some 0, some "Floor", some 300, some 10000, some "SEPSISPULM", some "95"⟩

/-- The same row after the age cast. -/
def fRowOut : CohortRow Int :=
  ⟨1, some 0, some "Floor", some 300, some 10000, some "SEPSISPULM", 95⟩

theorem C3_filter_predicates_witness :
    CohortRow.apache_readmit fRowOut = some 0 ∧
    fRowOut.unitadmitsource ≠ some "Other ICU" ∧
    (∃ l, fRowOut.unit_los = some l ∧ 240 ≤ l) ∧
    (∃ l, fRowOut.hospital_los = some l ∧ l < 525600) ∧
    fRowOut.admit_diagnosis ≠ some "BURN" ∧
    16 ≤ fRowOut.age ∧
    (∃ s, s ≠ "" ∧ s ≠ "> 89" ∧ parseInt s = some fRowOut.age) :=
  C3_filter_predicates [fRowIn] [fRowOut] (by rfl) fRowOut (List.mem_singleton.mpr rfl)

/-! Missingness normalizer (notebook cell `cohort.replace(-1, np.nan)`)

`cohort.replace(-1, np.nan)` turns every numeric cell equal to `-1` into NaN,
then `cohort.loc[cohort.apache_prediction >= 0.]` keeps exactly the rows whose
APACHE prediction is present and non-negative (a NaN comparison is `False`). -/

/-- Row-wise sentinel replacement: any cell equal to `-1` becomes missing. -/
def replaceSentinelRow (r : Row) : Row :=
  r.map (fun p => (p.1, if p.2 = some (-1) then none else p.2))

/-- The missingness-normalizer stage on the whole table. -/
def missStage (rows : List Row) : List Row :=
  (rows.map replaceSentinelRow).filter
    (fun r => geCheck (getCol r "apache_prediction") 0)

theorem lookup_map_value (c : String) (f : Cell → Cell) (r : Row) :
    List.lookup c (r.map (fun p => (p.1, f p.2))) = (List.lookup c r).map f := by
  induction r with
  | nil => rfl
  | cons p rs ih =>
    by_cases hc : c = p.1
    · subst hc
      simp [List.lookup]
    · have hbeq : (c == p.1) = false := beq_eq_false_iff_ne.mpr hc
      simp [List.lookup, hbeq, ih]

theorem getCol_replaceSentinelRow (r : Row) (c : String) :
    getCol (replaceSentinelRow r) c =
      (getCol r c).bind (fun v => if v = -1 then none else some v) := by
  have hlv := lookup_map_value c (fun v => if v = some (-1) then none else v) r
  simp only [getCol, replaceSentinelRow]
  rw [hlv]
  cases h : List.lookup c r with
  | none => rfl
  | some v =>
    cases v with
    | none => rfl
    | some q =>
      by_cases hq : q = -1
      · simp [getCol, hq, Option.join]
      · simp [getCol, hq, Option.join]

/-- Claim C6: the stage replaces every `-1` cell with a missing marker and then
drops exactly the rows whose `apache_prediction` is missing or negative; it is
total (never raises).  Every retained row has a present, non-negative
prediction and no column holding `-1`; conversely any input row whose
sentinel-replaced form has a present non-negative prediction is retained. -/
theorem C6_missingness_normalizer (rows : List Row) :
    (∀ r ∈ missStage rows,
      (∃ p, getCol r "apache_prediction" = some p ∧ 0 ≤ p) ∧
      (∀ c, getCol r c ≠ some (-1)) ∧
      (∃ r0 ∈ rows, r = replaceSentinelRow r0)) ∧
    (∀ r0 ∈ rows,
      (∃ p, getCol (replaceSentinelRow r0) "apache_prediction" = some p ∧ 0 ≤ p) →
      replaceSentinelRow r0 ∈ missStage rows) := by
  constructor
  · intro r hr
    rw [missStage, List.mem_filter] at hr
    obtain ⟨hmem, hpred⟩ := hr
    obtain ⟨r0, hr0, hrep⟩ := List.mem_map.mp hmem
    obtain ⟨p, hp⟩ : ∃ p, getCol r "apache_prediction" = some p := by
      cases h : getCol r "apache_prediction" with
      | none => rw [geCheck.eq_def, h] at hpred; cases hpred
      | some x => exact ⟨x, rfl⟩
    rw [geCheck.eq_def, hp, decide_eq_true_eq] at hpred
    refine ⟨⟨p, hp, hpred⟩, ?_, ⟨r0, hr0, hrep.symm⟩⟩
    intro c
    rw [← hrep, getCol_replaceSentinelRow]
    cases getCol r0 c with
    | none => simp
    | some q =>
      by_cases hq : q = -1
      · simp [hq]
      · simp [hq]
  · intro r0 hr0 ⟨p, hp, hple⟩
    rw [missStage, List.mem_filter]
    refine ⟨List.mem_map_of_mem _ hr0, ?_⟩
    rw [geCheck.eq_def, hp, decide_eq_true_eq]
    exact hple

/-- A concrete table for the missingness normalizer: one retained row with a
sentinel lactate value, one dropped row with a missing prediction. -/
def missRows : List Row :=
  [[("patientunitstayid", some 7), ("apache_prediction", some 1),
    ("lactate_min", some (-1))],
   [("patientunitstayid", some 8), ("apache_prediction", none),
    ("lactate_min", some 2)]]

theorem C6_missingness_normalizer_witness :
    (∃ p, getCol (replaceSentinelRow [("patientunitstayid", some 7),
      ("apache_prediction", some 1), ("lactate_min", some (-1))])
        "apache_prediction" = some p ∧ 0 ≤ p) ∧
    (∀ c, getCol (replaceSentinelRow [("patientunitstayid", some 7),
      ("apache_prediction", some 1), ("lactate_min", some (-1))]) c ≠
        some (-1)) := by
  have h := (C6_missingness_normalizer missRows).1
    (replaceSentinelRow [("patientunitstayid", some 7),
      ("apache_prediction", some 1), ("lactate_min", some (-1))])
    (by
      have h2 := (C6_missingness_normalizer missRows).2
        [("patientunitstayid", some 7), ("apache_prediction", some 1),
          ("lactate_min", some (-1))]
        (List.mem_cons_self _ _)
      exact h2 ⟨1, by rfl, by norm_num⟩)
  exact ⟨h.1, h.2.1⟩

/-! Categorical encoder (notebook section "4", categorical cells)

`admit_diagnosis` has `'-'` and `'/'` replaced by `'_'` (and nothing else);
`unit_type` has `'-'` and `' '` replaced by `'_'` (and nothing else);
`ethnicity` is remapped through the fixed dict `eth_map` by `Series.map`,
which sends any key absent from the dict to NaN. -/

/-- Single-character replacement, the semantics of `Series.str.replace` with a
one-character pattern. -/
def replaceChar (c r : Char) (s : String) : String :=
  ⟨s.data.map (fun x => if x = c then r else x)⟩

/-- Canonicalization applied to `admit_diagnosis`: `'-'` then `'/'` become
`'_'`; spaces are left alone. -/
def adxCanon (s : String) : String := replaceChar '/' '_' (replaceChar '-' '_' s)

/-- Canonicalization applied to `unit_type`: `'-'` then `' '` become `'_'`;
slashes are left alone. -/
def unitCanon (s : String) : String := replaceChar ' ' '_' (replaceChar '-' '_' s)

/-- The fixed ethnicity remap table `eth_map` of the source. -/
def eth_map : List (String × String) :=
  [("Caucasian", "caucasian"), ("Other/Unknown", "other"),
   ("Native American", "native_american"), ("African American", "african_american"),
   ("Asian", "asian"), ("Hispanic", "hispanic"), ("", "other")]

/-- The remap `cohort.ethnicity.map(eth_map)`: dictionary lookup, `none` (NaN) for any
value that is not a key of the table. -/
def ethnicityMap (s : String) : Option String := List.lookup s eth_map

theorem lookup_eq_none_of_not_mem_keys {β : Type} (s : String)
    (l : List (String × β)) (h : s ∉ l.map Prod.fst) : List.lookup s l = none := by
  induction l with
  | nil => rfl
  | cons p ps ih =>
    simp only [List.map, List.mem_cons, not_or] at h
    have hbeq : (s == p.1) = false := beq_eq_false_iff_ne.mpr h.1
    simp only [List.lookup, hbeq]
    exact ih h.2

theorem lookup_mem_values {β : Type} {s : String} {v : β}
    {l : List (String × β)} (h : List.lookup s l = some v) : v ∈ l.map Prod.snd := by
  induction l with
  | nil => cases h
  | cons p ps ih =>
    rw [List.lookup] at h
    cases hbeq : (s == p.1) with
    | true =>
      rw [hbeq] at h
      simp only [Option.some.injEq] at h
      subst h
      exact List.mem_cons_self _ _
    | false =>
      rw [hbeq] at h
      exact List.mem_cons_of_mem _ (ih h)

/-- Claim C4, counterexample: the free-text label "Filipino" is not a key of
`eth_map`, and `Series.map` sends it to NaN — not to the 'other' category as
the claim states. -/
theorem C4_unmapped_not_other :
    ethnicityMap "Filipino" = none ∧ ethnicityMap "Filipino" ≠ some "other" := by
  constructor
  · rfl
  · intro h; cases h

/-- Claim C4, amended: the remapping is total (never raises), the empty string
is an explicit key of the table mapping to 'other', and every value that is
not a key of the table maps to a missing value (NaN), not to 'other'. -/
theorem C4_ethnicity_remap (s : String) (h : s ∉ eth_map.map Prod.fst) :
    ethnicityMap s = none ∧ ethnicityMap "" = some "other" :=
  ⟨lookup_eq_none_of_not_mem_keys s eth_map h, rfl⟩

theorem C4_ethnicity_remap_witness :
    ethnicityMap "Martian" = none ∧ ethnicityMap "" = some "other" :=
  C4_ethnicity_remap "Martian" (by decide)

theorem not_mem_replaceChar (c r : Char) (s : String) (h : r ≠ c) :
    c ∉ (replaceChar c r s).data := by
  rw [replaceChar]
  intro hmem
  obtain ⟨x, -, hx⟩ := List.mem_map.mp hmem
  by_cases hxc : x = c
  · rw [if_pos hxc] at hx; exact h hx
  · rw [if_neg hxc] at hx; exact hxc hx

theorem not_mem_replaceChar_of_not_mem (c c' r : Char) (s : String)
    (hs : c ∉ s.data) (hr : r ≠ c) : c ∉ (replaceChar c' r s).data := by
  rw [replaceChar]
  intro hmem
  obtain ⟨x, hxmem, hx⟩ := List.mem_map.mp hmem
  by_cases hxc : x = c'
  · rw [if_pos hxc] at hx; exact hr hx
  · rw [if_neg hxc] at hx; exact hs (hx ▸ hxmem)

/-- Claim C8, counterexample: the admit-diagnosis canonicalization leaves
spaces untouched, and the unit-type canonicalization leaves slashes untouched,
so an indicator-column name may retain a space or slash. -/
theorem C8_not_all_chars_replaced :
    adxCanon "A B" = "A B" ∧ ' ' ∈ (adxCanon "A B").data ∧
    unitCanon "A/B" = "A/B" ∧ '/' ∈ (unitCanon "A/B").data := by
  refine ⟨rfl, ?_, rfl, ?_⟩ <;> decide

/-- Claim C8, amended: the characters actually replaced differ per column —
`admit_diagnosis` gets `'-'` and `'/'` (not space) replaced by `'_'`,
`unit_type` gets `'-'` and `' '` (not slash) replaced by `'_'`, and
`ethnicity` gets no character replacement at all, its canonical remapped
values already containing none of `'-'`, `'/'` or `' '`. -/
theorem C8_canonicalization (s : String) :
    '-' ∉ (adxCanon s).data ∧ '/' ∉ (adxCanon s).data ∧
    '-' ∉ (unitCanon s).data ∧ ' ' ∉ (unitCanon s).data ∧
    (∀ v, ethnicityMap s = some v →
      '-' ∉ v.data ∧ '/' ∉ v.data ∧ ' ' ∉ v.data) := by
  refine ⟨?_, ?_, ?_, ?_, ?_⟩
  · exact not_mem_replaceChar_of_not_mem '-' '/' '_' (replaceChar '-' '_' s)
      (not_mem_replaceChar '-' '_' s (by decide)) (by decide)
  · exact not_mem_replaceChar '/' '_' (replaceChar '-' '_' s) (by decide)
  · exact not_mem_replaceChar_of_not_mem '-' ' ' '_' (replaceChar '-' '_' s)
      (not_mem_replaceChar '-' '_' s (by decide)) (by decide)
  · exact not_mem_replaceChar ' ' '_' (replaceChar '-' '_' s) (by decide)
  · intro v hv
    have hmem := lookup_mem_values hv
    simp only [eth_map, List.map, List.mem_cons, List.not_mem_nil, or_false] at hmem
    rcases hmem with rfl | rfl | rfl | rfl | rfl | rfl | rfl <;> refine ⟨?_, ?_, ?_⟩ <;> decide

theorem C8_canonicalization_witness :
    '-' ∉ (adxCanon "S-CABG/X").data ∧ '/' ∉ (adxCanon "S-CABG/X").data ∧
    '-' ∉ (unitCanon "Med-Surg ICU").data ∧ ' ' ∉ (unitCanon "Med-Surg ICU").data ∧
    ('-' ∉ "african_american".data ∧ '/' ∉ "african_american".data ∧
      ' ' ∉ "african_american".data) := by
  refine ⟨(C8_canonicalization "S-CABG/X").1, (C8_canonicalization "S-CABG/X").2.1,
    (C8_canonicalization "Med-Surg ICU").2.2.1,
    (C8_canonicalization "Med-Surg ICU").2.2.2.1,
    (C8_canonicalization "African American").2.2.2.2 "african_american" rfl⟩

/-! Splitter (notebook section "5")

`train_test_split(cohort, label, apache_pred, test_size=0.25, random_state=42)`
draws one seed-determined permutation of the row indices, takes the first
`ceil(0.25 * n)` shuffled indices as the test set and the rest as the train
set, and applies the same index lists to all three inputs.  The permutation is
abstracted as any list `perm` that permutes `range n`. -/

/-- The value `ceil(0.25 * n)`, the test-partition size used by scikit-learn. -/
def testCount (n : Nat) : Nat := (n + 3) / 4

/-- Select the rows of `xs` at the given indices, in order. -/
def gather {α : Type} (xs : List α) (idx : List Nat) : List α :=
  idx.filterMap (fun i => xs[i]?)

/-- The splitter: one shuffled index list applied identically to features,
label and baseline prediction; first component of each pair is the train
partition, second the test partition. -/
def trainTestSplit {α β γ : Type} (perm : List Nat)
    (xs : List α) (ys : List β) (zs : List γ) :
    (List α × List α) × (List β × List β) × (List γ × List γ) :=
  let k := testCount xs.length
  let te := perm.take k
  let tr := perm.drop k
  ((gather xs tr, gather xs te), (gather ys tr, gather ys te),
   (gather zs tr, gather zs te))

/-- Claim C5: the splitter partitions the pre-split row set into disjoint test
(25%, `ceil(n/4)`) and train (75%) index sets whose union is the whole row
set, and all three outputs (features, label, baseline prediction) are gathered
with the identical index lists, so the same row lands in the same partition in
all three. -/
theorem C5_train_test_split {α β γ : Type} (n : Nat) (perm : List Nat)
    (hperm : perm.Perm (List.range n))
    (xs : List α) (ys : List β) (zs : List γ) (hx : xs.length = n) :
    (perm.take (testCount n)).Disjoint (perm.drop (testCount n)) ∧
    (perm.take (testCount n) ++ perm.drop (testCount n)).Perm (List.range n) ∧
    (∀ i ∈ List.range n,
      (i ∈ perm.take (testCount n) ↔ i ∉ perm.drop (testCount n))) ∧
    (perm.take (testCount n)).length = testCount n ∧
    (perm.drop (testCount n)).length = n - testCount n ∧
    trainTestSplit perm xs ys zs =
      ((gather xs (perm.drop (testCount n)), gather xs (perm.take (testCount n))),
       (gather ys (perm.drop (testCount n)), gather ys (perm.take (testCount n))),
       (gather zs (perm.drop (testCount n)), gather zs (perm.take (testCount n)))) := by
  have hlen : perm.length = n := by
    simpa using hperm.length_eq
  have hnodup : perm.Nodup := hperm.symm.nodup (List.nodup_range n)
  have hk : testCount n ≤ n := by
    rw [testCount]
    omega
  have hdisj : (perm.take (testCount n)).Disjoint (perm.drop (testCount n)) :=
    List.disjoint_take_drop hnodup le_rfl
  have happ : perm.take (testCount n) ++ perm.drop (testCount n) = perm :=
    List.take_append_drop _ _
  refine ⟨hdisj, by rw [happ]; exact hperm, ?_, ?_, ?_, ?_⟩
  · intro i hi
    have hip : i ∈ perm := hperm.mem_iff.mpr hi
    constructor
    · intro ht hd
      exact hdisj ht hd
    · intro hd
      rcases List.mem_append.mp (happ ▸ hip) with h | h
      · exact h
      · exact absurd h hd
  · rw [List.length_take, hlen]
    exact Nat.min_eq_left hk
  · rw [List.length_drop, hlen]
  · rw [trainTestSplit, hx]

/-- A concrete split: n = 4 rows, permutation [2, 0, 3, 1], test size
`testCount 4 = 1`. -/
theorem C5_train_test_split_witness :
    ([2, 0, 3, 1].take (testCount 4)).Disjoint ([2, 0, 3, 1].drop (testCount 4)) ∧
    (([2, 0, 3, 1].take (testCount 4)) ++ ([2, 0, 3, 1].drop (testCount 4))).Perm
      (List.range 4) ∧
    trainTestSplit [2, 0, 3, 1] [(10 : ℚ), 20, 30, 40] [true, false, true, false]
        ["a", "b", "c", "d"] =
      ((gather [(10 : ℚ), 20, 30, 40] ([2, 0, 3, 1].drop (testCount 4)),
        gather [(10 : ℚ), 20, 30, 40] ([2, 0, 3, 1].take (testCount 4))),
       (gather [true, false, true, false] ([2, 0, 3, 1].drop (testCount 4)),
        gather [true, false, true, false] ([2, 0, 3, 1].take (testCount 4))),
       (gather ["a", "b", "c", "d"] ([2, 0, 3, 1].drop (testCount 4)),
        gather ["a", "b", "c", "d"] ([2, 0, 3, 1].take (testCount 4)))) := by
  obtain ⟨h1, h2, -, -, -, h6⟩ :=
    C5_train_test_split 4 [2, 0, 3, 1] (by decide)
      [(10 : ℚ), 20, 30, 40] [true, false, true, false] ["a", "b", "c", "d"] rfl
  exact ⟨h1, h2, h6⟩

/-! Extractor merge and uniqueness of the stay identifier (C7)

The Extractor merges three tables with `pd.merge(..., on='patientunitstayid')`
(strict inner joins).  Every later stage either filters rows, maps each row to
one row while keeping the identifier column, or gathers rows at distinct
indices — none duplicates a row. -/

/-- The stay-identifier column of a keyed table. -/
def tableIds {α : Type} (t : List (Nat × α)) : List Nat := t.map Prod.fst

/-- The merge `pd.merge(xs, ys, on='patientunitstayid')`: strict inner join, pairing
each left row with every right row of equal key. -/
def innerMerge {α β : Type} (xs : List (Nat × α)) (ys : List (Nat × β)) :
    List (Nat × (α × β)) :=
  xs.flatMap (fun x =>
    (ys.filter (fun y => y.1 == x.1)).map (fun y => (x.1, (x.2, y.2))))

theorem innerMerge_ids_sublist {α β : Type} (xs : List (Nat × α))
    (ys : List (Nat × β)) (hys : (tableIds ys).Nodup) :
    (tableIds (innerMerge xs ys)).Sublist (tableIds xs) := by
  induction xs with
  | nil => exact List.nil_sublist _
  | cons x xs ih =>
    have hstep : innerMerge (x :: xs) ys =
        ((ys.filter (fun y => y.1 == x.1)).map (fun y => (x.1, (x.2, y.2)))) ++
          innerMerge xs ys := by
      rw [innerMerge, List.flatMap_cons]
      rfl
    have hcons : tableIds (x :: xs) = x.1 :: tableIds xs := rfl
    rw [hstep, hcons, tableIds, List.map_append]
    cases hm : ys.filter (fun y => y.1 == x.1) with
    | nil =>
      simp only [List.map_nil, List.nil_append]
      exact List.Sublist.trans ih (List.sublist_cons_self _ _)
    | cons a l =>
      have hsubl : (a :: l).Sublist ys := hm ▸ List.filter_sublist ys
      have hnd : (tableIds (a :: l)).Nodup := (hsubl.map Prod.fst).nodup hys
      have hall : ∀ b ∈ a :: l, b.1 = x.1 := by
        intro b hb
        have hb2 : b ∈ ys.filter (fun y => y.1 == x.1) := by
          rw [hm]; exact hb
        have hp := @List.of_mem_filter _ (fun y => y.1 == x.1) b ys hb2
        exact beq_iff_eq.mp hp
      have hl : l = [] := by
        cases l with
        | nil => rfl
        | cons b ll =>
          exfalso
          have h1 : a.1 = x.1 := hall a (List.mem_cons_self _ _)
          have h2 : b.1 = x.1 :=
            hall b (List.mem_cons_of_mem _ (List.mem_cons_self _ _))
          rw [tableIds, List.map_cons, List.nodup_cons] at hnd
          exact hnd.1 (by
            rw [h1, ← h2]
            exact List.mem_map_of_mem Prod.fst (List.mem_cons_self _ _))
      subst hl
      simp only [List.map_cons, List.map_nil, List.cons_append, List.nil_append]
      exact List.Sublist.cons₂ _ (by simpa [tableIds] using ih)

theorem innerMerge_ids_nodup {α β : Type} (xs : List (Nat × α))
    (ys : List (Nat × β)) (hxs : (tableIds xs).Nodup)
    (hys : (tableIds ys).Nodup) : (tableIds (innerMerge xs ys)).Nodup :=
  (innerMerge_ids_sublist xs ys hys).nodup hxs

theorem ageToInt_ids {rs : List (CohortRow (Option String))}
    {out : List (CohortRow Int)} (h : ageToInt rs = some out) :
    out.map (fun r => r.patientunitstayid) =
      rs.map (fun r => r.patientunitstayid) := by
  induction rs generalizing out with
  | nil =>
    simp only [ageToInt, Option.some.injEq] at h
    subst h; rfl
  | cons p ps ih =>
    simp only [ageToInt] at h
    split at h
    · cases h
    · rename_i s hage
      split at h
      · cases h
      · rename_i a hint
        split at h
        · cases h
        · rename_i out' hrec
          simp only [Option.some.injEq] at h
          subst h
          simp only [List.map_cons]
          rw [ih hrec]
          rfl

theorem map_filter_sublist {α β : Type} (f : α → β) (p : α → Bool)
    (l : List α) : ((l.filter p).map f).Sublist (l.map f) :=
  (List.filter_sublist l).map f

theorem filterStage_ids_sublist {rows : List (CohortRow (Option String))}
    {out : List (CohortRow Int)} (h : filterStage rows = some out) :
    (out.map (fun r => r.patientunitstayid)).Sublist
      (rows.map (fun r => r.patientunitstayid)) := by
  simp only [filterStage] at h
  split at h
  · cases h
  · rename_i rs hrec
    simp only [Option.some.injEq] at h
    subst h
    refine (map_filter_sublist _ _ _).trans ?_
    rw [ageToInt_ids hrec]
    exact (map_filter_sublist _ _ _).trans
      ((map_filter_sublist _ _ _).trans
        ((map_filter_sublist _ _ _).trans
          ((map_filter_sublist _ _ _).trans
            ((map_filter_sublist _ _ _).trans
              ((map_filter_sublist _ _ _).trans
                (map_filter_sublist _ _ _))))))

theorem nodup_gather {α β : Type} (g : α → β) (xs : List α) (idx : List Nat)
    (hidx : idx.Nodup) (hval : ∀ i ∈ idx, i < xs.length)
    (hg : (xs.map g).Nodup) : ((gather xs idx).map g).Nodup := by
  induction idx with
  | nil => simp [gather]
  | cons i idx ih =>
    obtain ⟨hi, hidx2⟩ := List.nodup_cons.mp hidx
    have hival : i < xs.length := hval i (List.mem_cons_self _ _)
    simp only [gather, List.filterMap_cons, List.getElem?_eq_getElem hival]
    rw [List.map_cons, List.nodup_cons]
    refine ⟨?_, ih hidx2 (fun j hj => hval j (List.mem_cons_of_mem _ hj))⟩
    intro hmem
    rw [List.mem_map] at hmem
    obtain ⟨y, hy, hgy⟩ := hmem
    rw [List.mem_filterMap] at hy
    obtain ⟨j, hjmem, hjy⟩ := hy
    have hjval : j < xs.length := hval j (List.mem_cons_of_mem _ hjmem)
    rw [List.getElem?_eq_getElem hjval, Option.some.injEq] at hjy
    subst hjy
    have hij : i ≠ j := fun he => hi (he ▸ hjmem)
    have hmi : i < (xs.map g).length := by simpa
    have hmj : j < (xs.map g).length := by simpa
    have hgij : (xs.map g).get ⟨i, hmi⟩ = (xs.map g).get ⟨j, hmj⟩ := by
      simp only [List.get_eq_getElem, List.getElem_map]
      exact hgy.symm
    have := List.nodup_iff_injective_get.mp hg hgij
    exact hij (by simpa using this)

/-- Claim C7: assuming each joined source table keys uniquely on the stay
identifier, the Extractor's double inner merge yields a table with one row per
stay identifier, and every subsequent stage preserves uniqueness: the filter
stage only removes rows; any per-row transform that keeps the identifier
column (the abnormal-value selection, column drops, categorical encodings)
keeps the identifier list unchanged; and the split gathers rows at distinct
indices, never duplicating a row. -/
theorem C7_stay_id_uniqueness :
    (∀ (α β γ : Type) (A : List (Nat × α)) (B : List (Nat × β))
      (C : List (Nat × γ)),
      (tableIds A).Nodup → (tableIds B).Nodup → (tableIds C).Nodup →
      (tableIds (innerMerge (innerMerge A B) C)).Nodup) ∧
    (∀ (rows : List (CohortRow (Option String))) (out : List (CohortRow Int)),
      filterStage rows = some out →
      (rows.map (fun r => r.patientunitstayid)).Nodup →
      (out.map (fun r => r.patientunitstayid)).Nodup) ∧
    (∀ f : Row → Row,
      (∀ r, getCol (f r) "patientunitstayid" = getCol r "patientunitstayid") →
      ∀ rows : List Row,
        (rows.map (fun r => getCol r "patientunitstayid")).Nodup →
        ((rows.map f).map (fun r => getCol r "patientunitstayid")).Nodup) ∧
    (∀ r : Row, getCol (abnormalValueStage r) "patientunitstayid" =
      getCol r "patientunitstayid") ∧
    (∀ cs : List String, "patientunitstayid" ∉ cs →
      ∀ r : Row, getCol (dropCols cs r) "patientunitstayid" =
        getCol r "patientunitstayid") ∧
    (∀ (α β : Type) (g : α → β) (xs : List α) (idx : List Nat),
      idx.Nodup → (∀ i ∈ idx, i < xs.length) → (xs.map g).Nodup →
      ((gather xs idx).map g).Nodup) := by
  refine ⟨?_, ?_, ?_, stage_keeps_id, ?_, ?_⟩
  · intro α β γ A B C hA hB hC
    exact innerMerge_ids_nodup _ _ (innerMerge_ids_nodup _ _ hA hB) hC
  · intro rows out h hn
    exact (filterStage_ids_sublist h).nodup hn
  · intro f hf rows hn
    rw [List.map_map]
    have : (fun r => getCol r "patientunitstayid") ∘ f =
        fun r : Row => getCol (f r) "patientunitstayid" := rfl
    rw [this, List.map_congr_left (fun r _ => hf r)]
    exact hn
  · intro cs hcs r
    exact getCol_dropCols _ _ _ hcs
  · intro α β g xs idx h1 h2 h3
    exact nodup_gather g xs idx h1 h2 h3

theorem C7_stay_id_uniqueness_witness :
    (tableIds (innerMerge (innerMerge [((1 : Nat), true), (2, false)]
      [((1 : Nat), (5 : Nat)), (2, 6)] ) [((1 : Nat), "x"), (2, "y")])).Nodup ∧
    ([fRowOut].map (fun r => r.patientunitstayid)).Nodup ∧
    (([bidirRow].map abnormalValueStage).map
      (fun r => getCol r "patientunitstayid")).Nodup ∧
    getCol (abnormalValueStage bidirRow) "patientunitstayid" =
      getCol bidirRow "patientunitstayid" ∧
    getCol (dropCols ["unit_los"] bidirRow) "patientunitstayid" =
      getCol bidirRow "patientunitstayid" ∧
    ((gather [(5 : ℚ), 9] [1, 0]).map (fun q : ℚ => q)).Nodup := by
  obtain ⟨h1, h2, h3, h4, h5, h6⟩ := C7_stay_id_uniqueness
  refine ⟨h1 Bool Nat String _ _ _ (by decide) (by decide) (by decide),
    h2 [fRowIn] [fRowOut] (by rfl) (by decide),
    h3 abnormalValueStage h4 [bidirRow] (by simp),
    h4 bidirRow,
    h5 ["unit_los"] (by decide) bidirRow,
    h6 ℚ ℚ (fun q : ℚ => q) [(5 : ℚ), 9] [1, 0] (by decide) (by decide) ?_⟩
  simp
